import Mathlib

/-!
Verification of the clementine Bitcoin bridge core against its specification.

This file gives a shallow embedding, in Lean 4, of the parts of the repository
that the checked properties talk about:

* the header-chain circuit of `circuits-lib/src/header_chain/mod.rs`
  (proof-of-work check, compact-target codec, median-time-past, per-header
  state update, per-block work accounting, and the circuit wrapper), with
  SHA-256 kept abstract as a function parameter (it comes from the external
  `sha2` crate and no claim depends on its internals);
* the stabilization loop of `StateManager::process_block_parallel` in
  `core/src/states/mod.rs`, with the state machines abstracted to a
  processing function (their internals are irrelevant to the loop claims);
* the CPFP child-transaction construction of `core/src/tx_sender.rs`.

Machine integers are modelled as `Nat` with explicit `% 2^32` / `% 2^256`
where the Rust code wraps.  Code that can panic is modelled with `Option`
(`none` = panic, which aborts the zk proof).  Byte arrays are `List Nat`
with each element `< 256`.
-/

namespace Clementine

/-- Modulus of the `u32` type. -/
def U32_MOD : Nat := 2 ^ 32

/-- Modulus of the `crypto_bigint::U256` type. -/
def U256_MOD : Nat := 2 ^ 256

/-- Value of `U256::MAX`. -/
def U256_MAX : Nat := 2 ^ 256 - 1

/-- Big-endian value of a byte list, as in `U256::from_be_slice` /
`U256::from_be_bytes`. -/
def beBytesToNat : List Nat → Nat
  | [] => 0
  | b :: bs => b * 256 ^ bs.length + beBytesToNat bs

/-- Big-endian byte list (of width `w`) of a natural number, as in
`U256::to_be_bytes`. -/
def natToBeBytes (w n : Nat) : List Nat :=
  (List.range w).map (fun i => n / 256 ^ (w - 1 - i) % 256)

/-- Little-endian 4-byte encoding of a `u32` value (`u32::to_le_bytes`,
also used for the bit pattern of an `i32`). -/
def u32le (n : Nat) : List Nat :=
  [n % 256, n / 256 % 256, n / 2 ^ 16 % 256, n / 2 ^ 24 % 256]

/-- Loop body of `check_hash_valid` (mod.rs:668-676): compare the byte
lists position by position; the first strictly smaller byte means success,
the first strictly greater byte means panic, equal bytes continue, and
exhausting all bytes means success. -/
def cmpBytesLe : List Nat → List Nat → Bool
  | [], _ => true
  | _ :: _, [] => true
  | a :: as, b :: bs =>
    if a < b then true
    else if b < a then false
    else cmpBytesLe as bs

/-- Embedding of `check_hash_valid` (mod.rs:668-676).  The Rust loop compares
`hash[31 - i]` with `target_bytes[i]` for `i = 0..32`, i.e. the reversed hash
against the target; `true` means the function returns normally, `false` means
it panics with "Hash is not valid". -/
def checkHashValid (hash targetBytes : List Nat) : Bool :=
  cmpBytesLe hash.reverse targetBytes

/-- Structural helper for `bitLength`: the first argument is fuel, large
enough for every value the 256-bit code can produce. -/
def bitLenAux : Nat → Nat → Nat
  | 0, _ => 0
  | fuel + 1, n => if n = 0 then 0 else bitLenAux fuel (n / 2) + 1

/-- Number of bits of a natural number below `2^300`, as computed by
`U256::bits()` (`256 - leading_zeros`, i.e. `0` for `0` and
`floor(log2 n) + 1` otherwise). -/
def bitLength (n : Nat) : Nat :=
  bitLenAux 300 n

/-- Embedding of `bits_to_target` (mod.rs:570-580).  `size` is the top byte,
`mantissa` the low 24 bits; the target value is the mantissa shifted by whole
bytes (`U256` shifts wrap at 256 bits). -/
def bitsToTarget (bits : Nat) : List Nat :=
  let size := bits / 2 ^ 24
  let mantissa := bits % 2 ^ 24
  let target :=
    if size ≤ 3 then mantissa / 2 ^ (8 * (3 - size))
    else mantissa * 2 ^ (8 * (size - 3)) % U256_MOD
  natToBeBytes 32 target

/-- Embedding of `target_to_bits` (mod.rs:594-604) on a 32-byte target.
`none` models the Rust panics: the `usize` underflow in `target[size - 1]`
when `size = 0`, and the out-of-bounds index when `size + 1 ≥ 32`.  The
compact result is `u32::from_be_bytes([33 - size, target[size-1],
target[size], target[size+1]])`. -/
def targetToBits (target : List Nat) : Option Nat :=
  let t := beBytesToNat target
  let size := (263 - bitLength t) / 8
  if 1 ≤ size ∧ size + 1 < 32 then
    some ((33 - size) % 256 * 2 ^ 24 + target.getD (size - 1) 0 * 2 ^ 16 +
      target.getD size 0 * 2 ^ 8 + target.getD (size + 1) 0)
  else none

/-- Insertion step of the ascending sort used to embed `sort_unstable` in
`median` (mod.rs:526-530); `sort_unstable` sorts the `u32` array in
ascending order, which on a totally ordered element type determines the
result uniquely. -/
def insertSorted (x : Nat) : List Nat → List Nat
  | [] => [x]
  | y :: ys => if x ≤ y then x :: y :: ys else y :: insertSorted x ys

/-- Ascending sort of a `u32` list (the embedding of `sort_unstable`). -/
def sortU32 (l : List Nat) : List Nat :=
  l.foldr insertSorted []

/-- Embedding of `median` (mod.rs:526-530): sort the 11 timestamps ascending
and take index 5. -/
def median (arr : List Nat) : Nat :=
  (sortU32 arr).getD 5 0

/-- Embedding of `validate_timestamp` (mod.rs:546-549). -/
def validateTimestamp (blockTime : Nat) (prev11Timestamps : List Nat) : Bool :=
  decide (median prev11Timestamps < blockTime)

/-- Embedding of the `NetworkConstants` struct (mod.rs:111-115). -/
structure NetworkConstants where
  max_bits : Nat
  max_target : Nat
  max_target_bytes : List Nat

/-- Mainnet (and default) entry of `NETWORK_CONSTANTS` (mod.rs:169-189). -/
def mainnetConstants : NetworkConstants where
  max_bits := 0x1D00FFFF
  max_target := 0x00000000FFFF0000000000000000000000000000000000000000000000000000
  max_target_bytes := [0, 0, 0, 0, 255, 255] ++ List.replicate 26 0

/-- Testnet4 entry of `NETWORK_CONSTANTS` (mod.rs:159-168); the values agree
with mainnet. -/
def testnet4Constants : NetworkConstants where
  max_bits := 0x1D00FFFF
  max_target := 0x00000000FFFF0000000000000000000000000000000000000000000000000000
  max_target_bytes := [0, 0, 0, 0, 255, 255] ++ List.replicate 26 0

/-- Embedding of `MINIMUM_WORK_TESTNET` (mod.rs:122-123). -/
def MINIMUM_WORK_TESTNET : Nat :=
  0x0000000000000000000000000000000000000000000000000000000100010001

/-- Embedding of `EXPECTED_EPOCH_TIMESPAN` (mod.rs:201-204) for every network
except the custom signet (which no claim concerns). -/
def EXPECTED_EPOCH_TIMESPAN : Nat := 60 * 60 * 24 * 14

/-- Embedding of `BLOCKS_PER_EPOCH` (mod.rs:210). -/
def BLOCKS_PER_EPOCH : Nat := 2016

/-- Embedding of `calculate_work` (mod.rs:694-698): read the 32-byte target,
increment with `saturating_add(&U256::ONE)` (which stays at `U256::MAX` when
the target is all ones) and divide `U256::MAX` by it. -/
def calculateWork (target : List Nat) : Nat :=
  let t := beBytesToNat target
  let targetPlusOne := min (t + 1) U256_MAX
  U256_MAX / targetPlusOne

/-- Embedding of the `CircuitBlockHeader` struct (mod.rs:227-234).  The
`version` field is the `u32` bit pattern of the `i32` value (only its
little-endian bytes are ever used). -/
structure CircuitBlockHeader where
  version : Nat
  prev_block_hash : List Nat
  merkle_root : List Nat
  time : Nat
  bits : Nat
  nonce : Nat

/-- Serialization of a header as fed to the hasher in `compute_block_hash`
(mod.rs:247-260): little-endian ints, raw 32-byte arrays. -/
def serializeHeader (h : CircuitBlockHeader) : List Nat :=
  u32le h.version ++ h.prev_block_hash ++ h.merkle_root ++
    u32le h.time ++ u32le h.bits ++ u32le h.nonce

/-- Embedding of `CircuitBlockHeader::compute_block_hash` (mod.rs:247-260):
double SHA-256 over the 80-byte serialization.  SHA-256 itself comes from the
external `sha2` crate and is kept abstract as the parameter `sha`. -/
def computeBlockHash (sha : List Nat → List Nat) (h : CircuitBlockHeader) : List Nat :=
  sha (sha (serializeHeader h))

/-- Embedding of the `MMRGuest` struct (declared in mod.rs:17, field use in
mod.rs:367-370): the list of peaks plus the number of appended leaves. -/
structure MMRGuest where
  subroots : List (List Nat)
  size : Nat

/-- Structural helper for `trailingOnes` with an explicit fuel argument. -/
def trailingOnesAux : Nat → Nat → Nat
  | 0, _ => 0
  | fuel + 1, n => if n % 2 = 1 then trailingOnesAux fuel (n / 2) + 1 else 0

/-- Number of trailing one bits of a natural number (64 bits of fuel covers
every `u32` MMR size): how many peak merges an append performs when the MMR
currently holds `n` leaves. -/
def trailingOnes (n : Nat) : Nat :=
  trailingOnesAux 64 n

/-- Merge the last two peaks `k` times; each merge hashes the concatenation
of the second-to-last peak (left) with the last peak (right). -/
def mmrCollapse (sha : List Nat → List Nat) : Nat → List (List Nat) → List (List Nat)
  | 0, ps => ps
  | k + 1, ps =>
    mmrCollapse sha k
      (ps.dropLast.dropLast ++ [sha (ps.getD (ps.length - 2) [] ++ ps.getD (ps.length - 1) [])])

/-- Modelled from the spec: `MMRGuest::append` lives in
`header_chain/mmr_guest.rs`, which is not under `src/`; the spec (§3, §4.2)
describes it as pushing the new leaf and then, while the last two peaks have
equal rank, hashing them together (left then right) and collapsing.  The
number of merges after `size` appends is the number of trailing one bits of
`size`. -/
def MMRGuest.append (sha : List Nat → List Nat) (m : MMRGuest) (leaf : List Nat) : MMRGuest where
  subroots := mmrCollapse sha (trailingOnes m.size) (m.subroots ++ [leaf])
  size := m.size + 1

/-- Embedding of the `ChainState` struct (mod.rs:307-315).  `total_work` is
stored as the big-endian value of the `[u8; 32]` field (always `< 2^256`). -/
structure ChainState where
  block_height : Nat
  total_work : Nat
  best_block_hash : List Nat
  current_target_bits : Nat
  epoch_start_time : Nat
  prev_11_timestamps : List Nat
  block_hashes_mmr : MMRGuest

/-- Embedding of `ChainState::new` (mod.rs:325-335): `block_height` starts at
the sentinel `u32::MAX`. -/
def ChainState.new (nc : NetworkConstants) : ChainState where
  block_height := U32_MOD - 1
  total_work := 0
  best_block_hash := List.replicate 32 0
  current_target_bits := nc.max_bits
  epoch_start_time := 0
  prev_11_timestamps := List.replicate 11 0
  block_hashes_mmr := ⟨[], 0⟩

/-- Embedding of `ChainState::to_hash` (mod.rs:357-372): SHA-256 over the
concatenation of all fields (ints little-endian, arrays raw). -/
def ChainState.toHash (sha : List Nat → List Nat) (s : ChainState) : List Nat :=
  sha (u32le s.block_height ++ natToBeBytes 32 s.total_work ++ s.best_block_hash ++
    u32le s.current_target_bits ++ u32le s.epoch_start_time ++
    (s.prev_11_timestamps.map u32le).flatten ++
    s.block_hashes_mmr.subroots.flatten ++ u32le s.block_hashes_mmr.size)

/-- Embedding of `calculate_new_difficulty` (mod.rs:628-649): clamp the
actual epoch timespan (wrapping `u32` subtraction), scale the old target with
wrapping 256-bit multiplication and division, and cap at the network maximum
target. -/
def calculateNewDifficulty (nc : NetworkConstants)
    (epochStartTime lastTimestamp currentTarget : Nat) : List Nat :=
  let actualTimespan := (lastTimestamp + U32_MOD - epochStartTime % U32_MOD) % U32_MOD
  let actualTimespan :=
    if actualTimespan < EXPECTED_EPOCH_TIMESPAN / 4 then EXPECTED_EPOCH_TIMESPAN / 4
    else if actualTimespan > EXPECTED_EPOCH_TIMESPAN * 4 then EXPECTED_EPOCH_TIMESPAN * 4
    else actualTimespan
  let currentTargetBytes := bitsToTarget currentTarget
  let newTarget := beBytesToNat currentTargetBytes * actualTimespan % U256_MOD /
    EXPECTED_EPOCH_TIMESPAN
  let newTarget := if newTarget > nc.max_target then nc.max_target else newTarget
  natToBeBytes 32 newTarget

/-- Selection of `(target_to_use, expected_bits, work_to_add)` at the top of
the per-header loop (mod.rs:424-455): on testnet4, a header whose timestamp
exceeds the previous block time by more than 1200 seconds may use the
maximum target and contributes `MINIMUM_WORK_TESTNET`, except on an epoch
boundary; every other case uses the current target and its work. -/
def selectTarget (isTestnet4 : Bool) (nc : NetworkConstants) (st : ChainState)
    (targetBytes : List Nat) (lastBlockTime : Nat) (h : CircuitBlockHeader)
    (height : Nat) : List Nat × Nat × Nat :=
  if isTestnet4 then
    if h.time > (lastBlockTime + 1200) % U32_MOD then
      if height % BLOCKS_PER_EPOCH = 0 then
        (targetBytes, st.current_target_bits, calculateWork targetBytes)
      else
        (nc.max_target_bytes, nc.max_bits, MINIMUM_WORK_TESTNET)
    else (targetBytes, st.current_target_bits, calculateWork targetBytes)
  else (targetBytes, st.current_target_bits, calculateWork targetBytes)

/-- Conjunction of the per-header assertions (mod.rs:459-483), in source
order: chain continuity, difficulty-bits binding (`max_bits` on regtest,
`expected_bits` otherwise), proof of work against the selected target, and
the median-time-past rule. -/
def stepChecksOk (isRegtest : Bool) (nc : NetworkConstants)
    (sha : List Nat → List Nat) (st : ChainState) (expectedBits : Nat)
    (targetToUse : List Nat) (h : CircuitBlockHeader) : Bool :=
  decide (h.prev_block_hash = st.best_block_hash) &&
    (if isRegtest then decide (h.bits = nc.max_bits) else decide (h.bits = expectedBits)) &&
    checkHashValid (computeBlockHash sha h) targetToUse &&
    validateTimestamp h.time st.prev_11_timestamps

/-- State updates of a successful header application (mod.rs:485-497): append
the hash to the MMR, set `best_block_hash` and the incremented height, record
the epoch start time on an epoch boundary (non-regtest), and write the
timestamp into ring-buffer slot `height mod 11`. -/
def updatedState (isRegtest : Bool) (sha : List Nat → List Nat) (st : ChainState)
    (h : CircuitBlockHeader) (height : Nat) : ChainState :=
  let st1 := { st with
    block_height := height
    block_hashes_mmr := st.block_hashes_mmr.append sha (computeBlockHash sha h)
    best_block_hash := computeBlockHash sha h }
  let st2 := if ¬isRegtest ∧ height % BLOCKS_PER_EPOCH = 0 then
      { st1 with epoch_start_time := h.time } else st1
  { st2 with prev_11_timestamps := st2.prev_11_timestamps.set (height % 11) h.time }

/-- Difficulty retarget at the end of an epoch (mod.rs:499-506): on header
2015 of an epoch (non-regtest), recompute the target bytes and re-encode the
compact bits; the `target_to_bits` panic propagates as `none`.  Off the
boundary the current target bytes are kept. -/
def retargetState (isRegtest : Bool) (nc : NetworkConstants) (st : ChainState)
    (h : CircuitBlockHeader) (height : Nat) (targetBytes : List Nat) :
    Option (ChainState × List Nat) :=
  if ¬isRegtest ∧ height % BLOCKS_PER_EPOCH = BLOCKS_PER_EPOCH - 1 then
    match targetToBits
        (calculateNewDifficulty nc st.epoch_start_time h.time st.current_target_bits) with
    | none => none
    | some newBits =>
      some ({ st with current_target_bits := newBits },
        calculateNewDifficulty nc st.epoch_start_time h.time st.current_target_bits)
  else some (st, targetBytes)

/-- Update of the `last_block_time` local at the end of an iteration
(mod.rs:495-497): testnet4 tracks the header's timestamp. -/
def nextLastBlockTime (isTestnet4 : Bool) (lastBlockTime : Nat)
    (h : CircuitBlockHeader) : Nat :=
  if isTestnet4 then h.time else lastBlockTime

/-- Per-header body of the loop in `apply_block_headers` (mod.rs:421-507).
The tuple carries, besides the `ChainState`, the local variables
`current_target_bytes`, `current_work` and `last_block_time` of the Rust
function.  `none` models a panic (failed assertion or invalid index), which
aborts the proof. -/
def applyHeaderStep (isRegtest isTestnet4 : Bool) (nc : NetworkConstants)
    (sha : List Nat → List Nat) (st : ChainState) (targetBytes : List Nat)
    (work lastBlockTime : Nat) (h : CircuitBlockHeader) :
    Option (ChainState × List Nat × Nat × Nat) :=
  let height := (st.block_height + 1) % U32_MOD
  let sel := selectTarget isTestnet4 nc st targetBytes lastBlockTime h height
  if stepChecksOk isRegtest nc sha st sel.2.1 sel.1 h then
    match retargetState isRegtest nc (updatedState isRegtest sha st h height) h height
        targetBytes with
    | none => none
    | some (st2, tgt2) =>
      some (st2, tgt2, (work + sel.2.2) % U256_MOD,
        nextLastBlockTime isTestnet4 lastBlockTime h)
  else none

/-- Loop of `apply_block_headers` (mod.rs:421-507) over the header list. -/
def applyLoop (isRegtest isTestnet4 : Bool) (nc : NetworkConstants)
    (sha : List Nat → List Nat) (st : ChainState) (targetBytes : List Nat)
    (work lastBlockTime : Nat) :
    List CircuitBlockHeader → Option (ChainState × Nat)
  | [] => some (st, work)
  | h :: rest =>
    match applyHeaderStep isRegtest isTestnet4 nc sha st targetBytes work lastBlockTime h with
    | none => none
    | some (st1, tgt1, work1, last1) =>
      applyLoop isRegtest isTestnet4 nc sha st1 tgt1 work1 last1 rest

/-- Initial `last_block_time` on testnet4 (mod.rs:411-419): `0` for the
uninitialized sentinel height, otherwise the ring-buffer slot of the current
height. -/
def lastBlockTimeInit (st : ChainState) : Nat :=
  if st.block_height = U32_MOD - 1 then 0
  else st.prev_11_timestamps.getD (st.block_height % 11) 0

/-- Embedding of `ChainState::apply_block_headers` (mod.rs:403-510): set up
the local variables (`current_target_bytes`, `current_work`,
`last_block_time`), run the per-header loop, and write the accumulated work
back into `total_work`. -/
def applyBlockHeaders (isRegtest isTestnet4 : Bool) (nc : NetworkConstants)
    (sha : List Nat → List Nat) (st : ChainState)
    (blockHeaders : List CircuitBlockHeader) : Option ChainState :=
  let targetBytes :=
    if isRegtest then natToBeBytes 32 nc.max_target
    else bitsToTarget st.current_target_bits
  let lastBlockTime := if isTestnet4 then lastBlockTimeInit st else 0
  (applyLoop isRegtest isTestnet4 nc sha st targetBytes st.total_work lastBlockTime
      blockHeaders).map
    fun p => { p.1 with total_work := p.2 }

/-- Embedding of the `BlockHeaderCircuitOutput` struct (mod.rs:702-706). -/
structure BlockHeaderCircuitOutput where
  method_id : List Nat
  genesis_state_hash : List Nat
  chain_state : ChainState

/-- Embedding of the `HeaderChainPrevProofType` enum (mod.rs:710-713). -/
inductive HeaderChainPrevProofType where
  | genesisBlock : ChainState → HeaderChainPrevProofType
  | prevProof : BlockHeaderCircuitOutput → HeaderChainPrevProofType

/-- Embedding of the `HeaderChainCircuitInput` struct (mod.rs:719-723). -/
structure HeaderChainCircuitInput where
  method_id : List Nat
  prev_proof : HeaderChainPrevProofType
  block_headers : List CircuitBlockHeader

/-- Chain state the circuit starts from, per the match in
`header_chain_circuit` (mod.rs:73-84). -/
def inputState (input : HeaderChainCircuitInput) : ChainState :=
  match input.prev_proof with
  | .genesisBlock g => g
  | .prevProof p => p.chain_state

/-- Genesis-state hash the circuit commits, per mod.rs:73-84. -/
def inputGenesisHash (sha : List Nat → List Nat) (input : HeaderChainCircuitInput) : List Nat :=
  match input.prev_proof with
  | .genesisBlock g => g.toHash sha
  | .prevProof p => p.genesis_state_hash

/-- Method-ID consistency check of `header_chain_circuit` (mod.rs:79): with a
previous proof, the input method ID must equal the proof's method ID. -/
def methodIdMismatch (input : HeaderChainCircuitInput) : Bool :=
  match input.prev_proof with
  | .genesisBlock _ => false
  | .prevProof p => decide (p.method_id ≠ input.method_id)

/-- Embedding of `header_chain_circuit` (mod.rs:69-95).  The zkVM guest is
modelled functionally: reading the input and committing the output become the
argument and the `some` result; a panic anywhere (method-ID mismatch or any
validation failure inside `apply_block_headers`) becomes `none`, in which
case the circuit commits nothing. -/
def headerChainCircuit (isRegtest isTestnet4 : Bool) (nc : NetworkConstants)
    (sha : List Nat → List Nat) (input : HeaderChainCircuitInput) :
    Option BlockHeaderCircuitOutput :=
  if methodIdMismatch input then none
  else
    (applyBlockHeaders isRegtest isTestnet4 nc sha (inputState input)
        input.block_headers).map
      fun chainState =>
        { method_id := input.method_id
          genesis_state_hash := inputGenesisHash sha input
          chain_state := chainState }

namespace StateMachineModel

/-- Outcome of processing one state machine against the fixed block cache
(`ContextProcessResult` in core/src/states/mod.rs): either the block
generates no events for the machine (`Unchanged`), or processing yields the
updated machine together with any newly spawned machines and accumulated
errors (the awaited `Processing` future together with its `StateContext`).
Machine internals are abstracted into this function-valued view; within one
block the cache is fixed, so processing a given machine is deterministic. -/
inductive ProcResult (M E : Type) where
  | unchanged : ProcResult M E
  | processed : M → List M → List E → ProcResult M E

/-- Errors of `process_block_parallel`: the block-cache guard, accumulated
processing errors, and the non-convergence error carrying the debug states of
the machines that were still changing. -/
inductive StabError (S E : Type) where
  | cacheNotUpdated : StabError S E
  | processingErrors : List E → StabError S E
  | nonConvergence : List S → StabError S E

variable {M S E : Type}

/-- Decides whether a machine is unaffected by the block
(`ContextProcessResult::Unchanged`). -/
def isUnchanged (proc : M → ProcResult M E) (m : M) : Bool :=
  match proc m with
  | .unchanged => true
  | .processed _ _ _ => false

/-- Embedding of `StateManager::update_machines` (states/mod.rs:373-399):
split the machines into those unaffected by the block and those with pending
processing futures, preserving order. -/
def updateMachines (proc : M → ProcResult M E) (ms : List M) : List M × List M :=
  (ms.filter (fun m => isUnchanged proc m), ms.filter (fun m => ¬ isUnchanged proc m))

/-- Machine resulting from awaiting a pending machine's processing future. -/
def procNext (proc : M → ProcResult M E) (m : M) : M :=
  match proc m with
  | .unchanged => m
  | .processed next _ _ => next

/-- Machines newly spawned into the context while processing `m`. -/
def procSpawned (proc : M → ProcResult M E) (m : M) : List M :=
  match proc m with
  | .unchanged => []
  | .processed _ spawned _ => spawned

/-- Errors accumulated into the context while processing `m`. -/
def procErrors (proc : M → ProcResult M E) (m : M) : List E :=
  match proc m with
  | .unchanged => []
  | .processed _ _ errs => errs

/-- Embedding of the stabilization loop of
`StateManager::process_block_parallel` (states/mod.rs:455-541).  Each round
awaits the pending futures, collects the changed machines plus the spawned
ones, surfaces accumulated errors, errors out with the changed machines'
states once the iteration counter exceeds 500, and otherwise re-partitions
the changed machines and loops.  Termination is exactly the source's
iteration bound. -/
def stabLoop (proc : M → ProcResult M E) (stateOf : M → S)
    (finalMs pending : List M) (iter : Nat) : Except (StabError S E) (List M) :=
  if pending.isEmpty then .ok finalMs
  else if ¬ (pending.flatMap (procErrors proc)).isEmpty then
    .error (.processingErrors (pending.flatMap (procErrors proc)))
  else if h : iter > 500 then
    .error (.nonConvergence
      ((pending.map (procNext proc) ++ pending.flatMap (procSpawned proc)).map stateOf))
  else
    stabLoop proc stateOf
      (finalMs ++ (updateMachines proc
        (pending.map (procNext proc) ++ pending.flatMap (procSpawned proc))).1)
      (updateMachines proc
        (pending.map (procNext proc) ++ pending.flatMap (procSpawned proc))).2
      (iter + 1)
termination_by 501 - iter
decreasing_by omega

/-- Machine set plus `last_processed_block_height` of the `StateManager`. -/
structure SMModel (M : Type) where
  machines : List M
  last_processed_block_height : Nat

/-- Embedding of `StateManager::process_block_parallel`
(states/mod.rs:438-548): check the block-cache guard, partition the machines,
run the stabilization loop, and on success install the stabilized machine
set and advance `last_processed_block_height` to
`max(block_height, last_processed_block_height)`. -/
def processBlockParallel (proc : M → ProcResult M E) (stateOf : M → S)
    (sm : SMModel M) (cacheBlockHeight blockHeight : Nat) :
    Except (StabError S E) (SMModel M) :=
  if cacheBlockHeight ≠ blockHeight then .error .cacheNotUpdated
  else
    (stabLoop proc stateOf (updateMachines proc sm.machines).1
        (updateMachines proc sm.machines).2 0).map
      fun ms =>
        { machines := ms
          last_processed_block_height := max blockHeight sm.last_processed_block_height }

/-- Processing function for the C8 witness: every machine is immediately
stable. -/
def procUnit : Unit → ProcResult Unit Unit := fun _ => ProcResult.unchanged

/-- State projection for the C8 witness. -/
def stateUnit : Unit → Unit := fun _ => ()

/-- Manager for the C8 witness: one machine, no blocks processed yet. -/
def smUnit : SMModel Unit := ⟨[()], 0⟩

end StateMachineModel

namespace TxSenderModel

/-- Transaction outpoint (txid value plus output index). -/
structure TxOutPoint where
  txid : Nat
  vout : Nat
deriving DecidableEq

/-- Embedding of `ANCHOR_AMOUNT` (core/src/constants.rs:4): value in satoshis
of the P2A anchor output. -/
def ANCHOR_AMOUNT : Nat := 240

/-- Hardcoded child-transaction size used by `create_child_tx`
(tx_sender.rs:190, `let child_tx_size = Amount::from_sat(300); // TODO: Fix
this.`). -/
def CHILD_TX_SIZE_HARDCODED : Nat := 300

/-- Fee reserved by `create_child_tx` (tx_sender.rs:191):
`fee_rate * (child_tx_size + parent_tx_size.to_wu())` with the hardcoded
child size. -/
def requiredFee (feeRate parentTxWeight : Nat) : Nat :=
  feeRate * (CHILD_TX_SIZE_HARDCODED + parentTxWeight)

/-- Shape of the child transaction built by `create_child_tx`
(tx_sender.rs:176-234): its ordered inputs and the value of its single
output. -/
structure ChildTx where
  inputs : List TxOutPoint
  outputValue : Nat

/-- Embedding of `TxSender::create_child_tx` (tx_sender.rs:176-234): input 0
spends the parent's P2A anchor (`SpendPath::Unknown`), input 1 spends the
confirmed fee-payer UTXO (taproot key path), and the single output returns
`fee_payer_amount - required_fee` to the signer's taproot address.  `none`
models the `Amount` subtraction panic when the fee payer cannot cover the
reserved fee. -/
def createChildTx (p2aAnchor feePayerOutpoint : TxOutPoint)
    (feePayerAmount parentTxWeight feeRate : Nat) : Option ChildTx :=
  if requiredFee feeRate parentTxWeight ≤ feePayerAmount then
    some { inputs := [p2aAnchor, feePayerOutpoint]
           outputValue := feePayerAmount - requiredFee feeRate parentTxWeight }
  else none

/-- Embedding of `TxSender::find_p2a_anchor` (tx_sender.rs:236-247): index of
the first output of the parent whose value equals the anchor amount. -/
def findP2aAnchor (outputValues : List Nat) : Option Nat :=
  outputValues.findIdx? (fun v => v == ANCHOR_AMOUNT)

/-- Total fee of the package (parent, child) submitted by
`send_tx_with_cpfp`: the parent pays zero fee (tx_sender.rs:177, "It assumes
the parent tx pays 0 fees"), and the child consumes the anchor value plus
`required_fee` ouf of its inputs. -/
def packageFee (feeRate parentTxWeight : Nat) : Nat :=
  ANCHOR_AMOUNT + requiredFee feeRate parentTxWeight

/-- Base (non-witness) serialized size in bytes of the child transaction:
version (4) + input count (1) + two inputs of 41 bytes (32-byte txid, 4-byte
vout, empty script length, 4-byte sequence) + output count (1) + one P2TR
output (8-byte value, script length, 34-byte script) + locktime (4).  These
are the consensus serialization sizes of the `bitcoin` crate for the
transaction assembled in `create_child_tx`. -/
def childTxBaseSize : Nat := 4 + 1 + 2 * (32 + 4 + 1 + 4) + 1 + (8 + 1 + 34) + 4

/-- Witness bytes of the child transaction: segwit marker and flag (2), an
empty witness stack on the anchor input (1), and on the fee-payer input a
one-item stack (1) holding a 64-byte Schnorr signature with length prefix
(1 + 64); `TapSighashType::Default` signatures serialize without a sighash
byte. -/
def childTxWitnessSize : Nat := 2 + 1 + (1 + 1 + 64)

/-- BIP141 weight of the child transaction:
`3 * base_size + total_size`. -/
def childTxWeight : Nat := 3 * childTxBaseSize + (childTxBaseSize + childTxWitnessSize)

end TxSenderModel

/-- Compact-target values of the mainnet reference vector: the `bits` column
of the 430 `DIFFICULTY_ADJUSTMENTS` entries (mod.rs:749-1180) together with
the final epoch's resulting `bits` value. -/
def referenceBits : List Nat := [
    486604799, 486604799, 486604799, 486604799, 486604799, 486604799, 486604799, 486604799,
    486604799, 486604799, 486604799, 486604799, 486604799, 486604799, 486604799, 486604799,
    486594666, 486589480, 486588017, 486575299, 476399191, 474199013, 473464687, 473437045,
    472518933, 471907495, 471225455, 471067731, 471178276, 470771548, 470727268, 470626626,
    470475923, 470131700, 469854461, 469830746, 469809688, 469794830, 459874456, 459009510,
    457664237, 456241827, 456101533, 454983370, 454373987, 453931606, 453610282, 453516498,
    453335379, 453281356, 453248203, 453217774, 453179945, 453150034, 453102630, 453062093,
    453041201, 453047097, 453036989, 453031340, 453023994, 443192243, 440711666, 438735905,
    438145839, 437461381, 437004818, 436911055, 436857860, 436789733, 436816518, 436826083,
    436833957, 436858461, 436956491, 437121226, 437129626, 437215665, 437159528, 437155514,
    437086679, 437048383, 437004555, 437006492, 436942092, 436941447, 436883582, 436904419,
    436936439, 436841986, 436898655, 436902102, 436844426, 436835377, 436796718, 436747465,
    436709470, 436658110, 436615736, 436591499, 436567560, 436565487, 436540357, 436533995,
    436527338, 436533858, 436576619, 436545969, 436577969, 436543292, 436508764, 436459339,
    436434426, 436371822, 436350910, 436330132, 436316733, 436305897, 436298084, 436278071,
    436264469, 436259150, 436249641, 436242792, 426957810, 424970034, 423711319, 422668188,
    421929506, 421321760, 420917450, 420481718, 420150405, 419981299, 419892219, 419828290,
    419740270, 419668748, 419628831, 419587686, 419558700, 419537774, 419520339, 419504166,
    419496625, 419486617, 419476394, 419470732, 419465580, 410792019, 409544770, 408782234,
    408005538, 406937553, 406809574, 406498978, 406305378, 405675096, 405280238, 405068777,
    404732051, 404711795, 404655552, 404472624, 404441185, 404454260, 404479356, 404426186,
    404291887, 404399040, 404274055, 404196666, 404172480, 404195570, 404110449, 404166640,
    404165597, 404129525, 404167307, 404103235, 404111758, 404063944, 404031509, 404020484,
    403981252, 403918273, 403867578, 403838066, 403836692, 403810644, 403747465, 403644022,
    403564111, 403424265, 403346833, 403288859, 403253488, 403153172, 403093919, 403108008,
    403088579, 403085044, 403056459, 403056502, 403024122, 403014710, 403020704, 402997206,
    402990845, 402990697, 403010088, 402984668, 402979592, 402972254, 402951892, 402931908,
    402937298, 402936180, 402908884, 402904457, 402885509, 402879999, 402867065, 402836551,
    402823865, 402816659, 402809567, 402804657, 402797402, 402791539, 402791230, 402781863,
    402774100, 402759343, 402754430, 402754864, 402742748, 402736949, 402731232, 402734313,
    402731275, 402718488, 402717299, 402713392, 402702781, 402705995, 402706678, 402698477,
    402691653, 402690497, 394155916, 392962374, 392292856, 392009692, 391481763, 391203401,
    391129783, 390680589, 390462291, 390327465, 390158921, 389609537, 389508950, 389315112,
    389437975, 388976507, 388763047, 388618029, 388503969, 388454943, 388350353, 388444093,
    388443538, 388648495, 389142908, 389488372, 389159077, 389010995, 389048373, 388919176,
    388914000, 388915479, 388767596, 388761373, 388779537, 388628280, 388627269, 388348790,
    388365571, 388200748, 387911067, 387922440, 387723321, 387687377, 387588414, 387427317,
    387321636, 387294044, 387223263, 387326161, 387297854, 387308498, 387300560, 387212786,
    387124344, 387068671, 387062484, 387067068, 386990361, 387201857, 387129532, 387031859,
    387021369, 387094518, 387219253, 387044594, 387044633, 386939413, 386970872, 386964396,
    386926570, 386939410, 386831018, 386831838, 386798414, 386974771, 386924253, 386838870,
    386863986, 386867735, 386771105, 386761815, 386736569, 386725091, 386736012, 386719599,
    386673224, 386658195, 386771043, 386612457, 386752379, 386801401, 387160270, 387225124,
    387148450, 387061771, 386923168, 386877668, 386846955, 386803250, 386794504, 386727631,
    386689514, 386701843, 386638367, 386635947, 386632843, 386568320, 386567092, 386535544,
    386545523, 386547904, 386521239, 386529497, 386495093, 386466234, 386492960, 386485098,
    386499788, 386508719, 386542084, 386530686, 386526600, 386471456, 386451604, 386464174,
    386393970, 386376745, 386377746, 386375189, 386414640, 386397584, 386417022, 386366690,
    386344736, 386347065, 386304419, 386299521, 386269758, 386261170, 386254649, 386260225,
    386248250, 386236009, 386228333, 386240190, 386218132, 386228482, 386228059, 386207611,
    386216622, 386198911, 386197775, 386178217, 386171284, 386161170, 386147408, 386150037,
    386132147, 386127977, 386138202, 386120285, 386101681, 386108434, 386095705, 386097875,
    386089497, 386085339, 386097818, 386094576, 386096312, 386096421, 386108013, 386100794,
    386079422, 386088310, 386082139, 386075020, 386084628, 386076365, 386068776]

/-- Concrete hash input for the C1 witness. -/
def c1Hash : List Nat := 1 :: List.replicate 31 0

/-- Concrete target input for the C1 witness. -/
def c1Target : List Nat := List.replicate 31 0 ++ [5]

/-- SHA-256 stand-in mapping every input to 32 zero bytes; used to build
concrete runs of the circuit embedding (the hash function is a parameter of
every theorem about it). -/
def shaZero : List Nat → List Nat := fun _ => List.replicate 32 0

/-- Chain state for the C2 witness: mid-chain mainnet state at the maximum
target. -/
def c2wState : ChainState :=
  ⟨5, 17, List.replicate 32 0, 0x1D00FFFF, 0, List.replicate 11 0, ⟨[], 0⟩⟩

/-- Header for the C2 witness, accepted against `c2wState` under
`shaZero`. -/
def c2wHeader : CircuitBlockHeader :=
  ⟨1, List.replicate 32 0, List.replicate 32 1, 5, 0x1D00FFFF, 0⟩

/-- Resulting chain state of the C2 witness run. -/
def c2wResult : ChainState :=
  (applyBlockHeaders false false mainnetConstants shaZero c2wState
    [c2wHeader]).getD (ChainState.new mainnetConstants)

/-- Chain state for the C2 counterexample: a mainnet state whose compact
target `0x0300FFFF` expands to the 16-bit target `0xFFFF`, for which
`0xFFFF + 1 = 2^16` divides `2^256`. -/
def c2cState : ChainState :=
  ⟨5, 0, List.replicate 32 0, 0x0300FFFF, 0, List.replicate 11 0, ⟨[], 0⟩⟩

/-- Header for the C2 counterexample, accepted against `c2cState` under
`shaZero`. -/
def c2cHeader : CircuitBlockHeader :=
  ⟨1, List.replicate 32 0, List.replicate 32 1, 5, 0x0300FFFF, 0⟩

/-- Header for the C5 witness, extending genesis under `shaZero`. -/
def c5Header : CircuitBlockHeader :=
  ⟨1, List.replicate 32 0, List.replicate 32 1, 5, 0x1D00FFFF, 0⟩

/-- Resulting chain state of the C5 witness run. -/
def c5Result : ChainState :=
  (applyBlockHeaders false false mainnetConstants shaZero
    (ChainState.new mainnetConstants) [c5Header]).getD (ChainState.new mainnetConstants)

/-- Chain state for the C3 witness. -/
def c3wState : ChainState :=
  ⟨5, 17, List.replicate 32 0, 0x1D00FFFF, 0, List.replicate 11 0, ⟨[], 0⟩⟩

/-- Header for the C3 witness: timestamp 2000 exceeds the previous block time
0 by more than 1200 seconds, and height 6 is not an epoch boundary, so the
header carries the maximum bits. -/
def c3wHeader : CircuitBlockHeader :=
  ⟨1, List.replicate 32 0, List.replicate 32 1, 2000, 0x1D00FFFF, 0⟩

/-- Resulting chain state of the C3 witness run. -/
def c3wResult : ChainState :=
  (applyBlockHeaders false true testnet4Constants shaZero c3wState
    [c3wHeader]).getD (ChainState.new testnet4Constants)

/-- Circuit input for the C7 witness: a genesis previous proof and an empty
header batch. -/
def c7Input : HeaderChainCircuitInput :=
  ⟨[1, 2, 3], .genesisBlock (ChainState.new mainnetConstants), []⟩

/-- Committed output of the C7 witness run. -/
def c7Out : BlockHeaderCircuitOutput :=
  (headerChainCircuit false false mainnetConstants shaZero c7Input).getD
    ⟨[], [], ChainState.new mainnetConstants⟩

/-! Helper lemmas and claim theorems. -/

theorem beBytesToNat_nil : beBytesToNat [] = 0 := rfl

theorem beBytesToNat_cons (b : Nat) (l : List Nat) :
    beBytesToNat (b :: l) = b * 256 ^ l.length + beBytesToNat l := rfl

theorem beBytesToNat_lt (l : List Nat) (hb : ∀ x ∈ l, x < 256) :
    beBytesToNat l < 256 ^ l.length := by
  induction l with
  | nil => simp [beBytesToNat]
  | cons b bs ih =>
    rw [beBytesToNat_cons]
    have hbb : b < 256 := hb b (List.mem_cons_self b bs)
    have hrec := ih (fun x hx => hb x (List.mem_cons_of_mem b hx))
    have hK : 0 < 256 ^ bs.length := pow_pos (by norm_num) bs.length
    calc b * 256 ^ bs.length + beBytesToNat bs
        < b * 256 ^ bs.length + 256 ^ bs.length := by omega
      _ = (b + 1) * 256 ^ bs.length := by ring
      _ ≤ 256 * 256 ^ bs.length := Nat.mul_le_mul_right _ hbb
      _ = 256 ^ (bs.length + 1) := by ring
      _ = 256 ^ (b :: bs).length := by simp

/-- Lexicographic byte comparison on equal-length bounded byte lists agrees
with numeric comparison of their big-endian values. -/
theorem cmpBytesLe_iff_le (as bs : List Nat) (hlen : as.length = bs.length)
    (ha : ∀ x ∈ as, x < 256) (hb : ∀ x ∈ bs, x < 256) :
    cmpBytesLe as bs = true ↔ beBytesToNat as ≤ beBytesToNat bs := by
  induction as generalizing bs with
  | nil =>
    cases bs with
    | nil => simp [cmpBytesLe, beBytesToNat]
    | cons b bs => simp at hlen
  | cons a as ih =>
    cases bs with
    | nil => simp at hlen
    | cons b bs =>
      simp only [List.length_cons, Nat.succ.injEq] at hlen
      have haa : a < 256 := ha a (List.mem_cons_self a as)
      have hbb : b < 256 := hb b (List.mem_cons_self b bs)
      have haRest : ∀ x ∈ as, x < 256 := fun x hx => ha x (List.mem_cons_of_mem a hx)
      have hbRest : ∀ x ∈ bs, x < 256 := fun x hx => hb x (List.mem_cons_of_mem b hx)
      have hvA : beBytesToNat as < 256 ^ as.length := beBytesToNat_lt as haRest
      have hvB : beBytesToNat bs < 256 ^ bs.length := beBytesToNat_lt bs hbRest
      rw [← hlen] at hvB
      rw [beBytesToNat_cons, beBytesToNat_cons, ← hlen]
      simp only [cmpBytesLe]
      have hK : 0 < 256 ^ as.length := pow_pos (by norm_num) as.length
      by_cases hab : a < b
      · simp only [hab, if_true, true_iff]
        have hstep : (a + 1) * 256 ^ as.length ≤ b * 256 ^ as.length :=
          Nat.mul_le_mul_right _ hab

        calc a * 256 ^ as.length + beBytesToNat as
            ≤ a * 256 ^ as.length + 256 ^ as.length := by omega
          _ = (a + 1) * 256 ^ as.length := by ring
          _ ≤ b * 256 ^ as.length := hstep
          _ ≤ b * 256 ^ as.length + beBytesToNat bs := Nat.le_add_right _ _
      · by_cases hba : b < a
        · simp only [hab, if_false, hba, if_true, Bool.false_eq_true, false_iff, not_le]
          have hstep : (b + 1) * 256 ^ as.length ≤ a * 256 ^ as.length :=
            Nat.mul_le_mul_right _ hba
          calc b * 256 ^ as.length + beBytesToNat bs
              < b * 256 ^ as.length + 256 ^ as.length := by omega
            _ = (b + 1) * 256 ^ as.length := by ring
            _ ≤ a * 256 ^ as.length := hstep
            _ ≤ a * 256 ^ as.length + beBytesToNat as := Nat.le_add_right _ _
        · have heq : a = b := Nat.le_antisymm (Nat.le_of_not_lt hba) (Nat.le_of_not_lt hab)
          subst heq
          simp only [hab, if_false, hba]
          rw [ih bs hlen haRest hbRest]
          constructor
          · intro h; exact Nat.add_le_add_left h _
          · intro h; exact Nat.le_of_add_le_add_left h

theorem bitLenAux_zero (fuel : Nat) : bitLenAux fuel 0 = 0 := by
  cases fuel <;> simp [bitLenAux]

theorem bitLenAux_eq_log2 (fuel n : Nat) (h : n < 2 ^ fuel) :
    bitLenAux fuel n = if n = 0 then 0 else Nat.log2 n + 1 := by
  induction fuel generalizing n with
  | zero =>
    have hn : n = 0 := by simpa using h
    simp [hn, bitLenAux]
  | succ fuel ih =>
    by_cases hn : n = 0
    · simp [bitLenAux, hn]
    · simp only [bitLenAux, hn, if_false]
      by_cases h2 : n < 2
      · have hn1 : n = 1 := by omega
        subst hn1
        have h12 : (1 : Nat) / 2 = 0 := by norm_num
        rw [h12, bitLenAux_zero]
        conv_rhs => rw [Nat.log2]
        norm_num
      · have hhalf : n / 2 < 2 ^ fuel := by
          rw [pow_succ] at h
          omega
        rw [ih (n / 2) hhalf]
        have hhn : ¬ n / 2 = 0 := by omega
        simp only [hhn, if_false]
        conv_rhs => rw [Nat.log2]
        simp only [show 2 ≤ n from by omega, if_pos]

/-- Characterization of `bitLength` on 256-bit values through `Nat.log2`. -/
theorem bitLength_eq (n : Nat) (h : n < 2 ^ 300) :
    bitLength n = if n = 0 then 0 else Nat.log2 n + 1 :=
  bitLenAux_eq_log2 300 n h

set_option maxRecDepth 100000 in
/-- C4: every compact target value of the mainnet reference vector
round-trips through `bits_to_target` and `target_to_bits`; in particular
`0x1702F128` expands to `00000000000000000002f128` followed by zeros and
round-trips back to `0x1702F128`. -/
theorem bitsToTarget_targetToBits_roundtrip :
    (∀ b ∈ referenceBits, targetToBits (bitsToTarget b) = some b) ∧
      bitsToTarget 0x1702F128 =
        [0, 0, 0, 0, 0, 0, 0, 0, 0, 0x02, 0xF1, 0x28] ++ List.replicate 20 0 ∧
      targetToBits (bitsToTarget 0x1702F128) = some 0x1702F128 :=
  ⟨by decide, by decide, by decide⟩

/-- C1: for every 32-byte block hash and 32-byte big-endian target,
`check_hash_valid` succeeds (returns without panicking) iff the 256-bit
integer obtained by reversing the hash bytes to big-endian is at most the
target.  The embedded comparison `cmpBytesLe` is exactly the source loop:
scan from the most significant byte, succeed on the first smaller byte,
panic on the first greater byte, succeed when all 32 bytes are equal. -/
theorem checkHashValid_iff_le (hash targetBytes : List Nat)
    (hlenH : hash.length = 32) (hlenT : targetBytes.length = 32)
    (hbH : ∀ x ∈ hash, x < 256) (hbT : ∀ x ∈ targetBytes, x < 256) :
    checkHashValid hash targetBytes = true ↔
      beBytesToNat hash.reverse ≤ beBytesToNat targetBytes := by
  apply cmpBytesLe_iff_le
  · simp [hlenH, hlenT]
  · intro x hx
    exact hbH x (List.mem_reverse.mp hx)
  · exact hbT

/-- Witness for C1 at a concrete 32-byte hash and target. -/
theorem checkHashValid_iff_le_witness :
    checkHashValid c1Hash c1Target = true ↔
      beBytesToNat c1Hash.reverse ≤ beBytesToNat c1Target :=
  checkHashValid_iff_le c1Hash c1Target (by decide) (by decide) (by decide) (by decide)

/-- Claim C10 helper: value of a 32-byte bounded list is below `2^256`. -/
theorem beBytesToNat_lt_u256 (target : List Nat) (hlen : target.length = 32)
    (hb : ∀ x ∈ target, x < 256) : beBytesToNat target < 2 ^ 256 := by
  have h := beBytesToNat_lt target hb
  rw [hlen] at h
  calc beBytesToNat target < 256 ^ 32 := h
    _ = 2 ^ 256 := by norm_num

/-- Claim C10 helper: the bit length of a 256-bit value is at most 256, and
compares against powers of two the way `U256::bits()` does. -/
theorem bitLength_le_256 (n : Nat) (h : n < 2 ^ 256) : bitLength n ≤ 256 := by
  rw [bitLength_eq n (h.trans (by norm_num))]
  by_cases h0 : n = 0
  · simp [h0]
  · simp only [h0, if_false]
    have := (Nat.log2_lt h0).mpr h
    omega

/-- Claim C10 helper: `16 ≤ bitLength n ↔ 2^15 ≤ n`. -/
theorem bitLength_ge_16_iff (n : Nat) (h : n < 2 ^ 256) :
    16 ≤ bitLength n ↔ 2 ^ 15 ≤ n := by
  rw [bitLength_eq n (h.trans (by norm_num))]
  by_cases h0 : n = 0
  · simp [h0]
  · simp only [h0, if_false]
    have hlog : 15 ≤ Nat.log2 n ↔ 2 ^ 15 ≤ n := Nat.le_log2 h0
    omega

/-- C10: `target_to_bits` reads the target bytes at indices `size - 1`,
`size`, `size + 1` where `size = (263 - bit_length(target)) / 8`; these
indices are within the 32-byte array (so the function returns instead of
panicking) exactly when the target's bit length is between 16 and 255
inclusive, and on the all-zero target (bit length 0, `size = 32`) the access
`target[32]` is out of bounds and the function panics. -/
theorem targetToBits_inBounds_iff (target : List Nat)
    (hlen : target.length = 32) (hb : ∀ x ∈ target, x < 256) :
    ((targetToBits target).isSome ↔
      16 ≤ bitLength (beBytesToNat target) ∧
        bitLength (beBytesToNat target) ≤ 255) ∧
      targetToBits (List.replicate 32 0) = none := by
  have ht : beBytesToNat target < 2 ^ 256 := beBytesToNat_lt_u256 target hlen hb
  have hbl : bitLength (beBytesToNat target) ≤ 256 := bitLength_le_256 _ ht
  constructor
  · have hiff : (targetToBits target).isSome = true ↔
        (1 ≤ (263 - bitLength (beBytesToNat target)) / 8 ∧
          (263 - bitLength (beBytesToNat target)) / 8 + 1 < 32) := by
      by_cases hc : 1 ≤ (263 - bitLength (beBytesToNat target)) / 8 ∧
          (263 - bitLength (beBytesToNat target)) / 8 + 1 < 32
      · simp [targetToBits, hc]
      · simp [targetToBits, hc]
    rw [hiff]
    revert hbl
    generalize bitLength (beBytesToNat target) = bl
    intro hbl
    omega
  · decide

/-- Claim C6 helper: the embedded insertion step is Mathlib's
`List.orderedInsert` for `≤`. -/
theorem insertSorted_eq_orderedInsert (x : Nat) (l : List Nat) :
    insertSorted x l = List.orderedInsert (· ≤ ·) x l := by
  induction l with
  | nil => rfl
  | cons y ys ih =>
    simp only [insertSorted, List.orderedInsert]
    rw [ih]

/-- Claim C6 helper: the embedded sort is Mathlib's insertion sort for
`≤`. -/
theorem sortU32_eq_insertionSort (l : List Nat) :
    sortU32 l = List.insertionSort (· ≤ ·) l := by
  induction l with
  | nil => rfl
  | cons x xs ih =>
    simp only [sortU32, List.foldr_cons, List.insertionSort]
    rw [show xs.foldr insertSorted [] = sortU32 xs from rfl, ih,
      insertSorted_eq_orderedInsert]

/-- Claim C6 helper: the embedded sort agrees with the (differently
implemented) merge sort of the core library, because both produce the
ascending sorted permutation, which is unique. -/
theorem sortU32_eq_mergeSort (l : List Nat) :
    sortU32 l = l.mergeSort (fun a b => decide (a ≤ b)) := by
  rw [sortU32_eq_insertionSort]
  have hperm : (List.insertionSort (· ≤ ·) l).Perm
      (l.mergeSort (fun a b => decide (a ≤ b))) :=
    (List.perm_insertionSort _ l).trans (List.mergeSort_perm l _).symm
  have hs1 : List.Sorted (· ≤ ·) (List.insertionSort (· ≤ ·) l) :=
    List.sorted_insertionSort _ l
  have hs2 : List.Sorted (· ≤ ·) (l.mergeSort (fun a b => decide (a ≤ b))) := by
    have h := @List.sorted_mergeSort Nat (fun a b => decide (a ≤ b))
      (fun a b c hab hbc => by
        simp only [decide_eq_true_eq] at hab hbc ⊢
        omega)
      (fun a b => by
        simp only [Bool.or_eq_true, decide_eq_true_eq]
        omega)
      l
    exact h.imp (fun hab => by simpa using hab)
  exact List.eq_of_perm_of_sorted hperm hs1 hs2

/-- C6: `validate_timestamp(t, prev11)` returns `true` iff `t` is strictly
greater than the median of `prev11`, where the median of an 11-element array
is the element at index 5 after sorting ascending (stated here through the
core library's merge sort, while the embedded `median` sorts by insertion). -/
theorem validateTimestamp_iff_median (t : Nat) (arr : List Nat)
    (_hlen : arr.length = 11) :
    validateTimestamp t arr = true ↔
      (arr.mergeSort (fun a b => decide (a ≤ b))).getD 5 0 < t := by
  unfold validateTimestamp median
  rw [sortU32_eq_mergeSort]
  simp

/-- Witness for C6 at the timestamp array of the repository's `test_median`
test. -/
theorem validateTimestamp_iff_median_witness :
    validateTimestamp 7 [3, 7, 2, 10, 1, 5, 9, 4, 8, 6, 11] = true ↔
      (([3, 7, 2, 10, 1, 5, 9, 4, 8, 6, 11] :
          List Nat).mergeSort (fun a b => decide (a ≤ b))).getD 5 0 < 7 :=
  validateTimestamp_iff_median 7 [3, 7, 2, 10, 1, 5, 9, 4, 8, 6, 11] (by decide)

/-- Witness for C10 at the mainnet maximum target (bit length 224). -/
theorem targetToBits_inBounds_iff_witness :
    ((targetToBits mainnetConstants.max_target_bytes).isSome ↔
      16 ≤ bitLength (beBytesToNat mainnetConstants.max_target_bytes) ∧
        bitLength (beBytesToNat mainnetConstants.max_target_bytes) ≤ 255) ∧
      targetToBits (List.replicate 32 0) = none :=
  targetToBits_inBounds_iff mainnetConstants.max_target_bytes (by decide) (by decide)

/-- Claim helper: the updated state's height is the incremented height. -/
theorem updatedState_block_height (isRegtest : Bool) (sha : List Nat → List Nat)
    (st : ChainState) (h : CircuitBlockHeader) (height : Nat) :
    (updatedState isRegtest sha st h height).block_height = height := by
  unfold updatedState
  split
  · rfl
  · rfl

/-- Claim helper: the updated state's best block hash is the new header
hash. -/
theorem updatedState_best_block_hash (isRegtest : Bool) (sha : List Nat → List Nat)
    (st : ChainState) (h : CircuitBlockHeader) (height : Nat) :
    (updatedState isRegtest sha st h height).best_block_hash = computeBlockHash sha h := by
  unfold updatedState
  split
  · rfl
  · rfl

/-- Claim helper: retargeting only changes `current_target_bits`. -/
theorem retargetState_some_spec (isRegtest : Bool) (nc : NetworkConstants)
    (st : ChainState) (h : CircuitBlockHeader) (height : Nat)
    (targetBytes : List Nat) (p : ChainState × List Nat)
    (hs : retargetState isRegtest nc st h height targetBytes = some p) :
    p.1.block_height = st.block_height ∧
      p.1.best_block_hash = st.best_block_hash := by
  unfold retargetState at hs
  split at hs
  · split at hs
    · exact absurd hs (by simp)
    · rw [Option.some.injEq] at hs
      subst hs
      exact ⟨rfl, rfl⟩
  · rw [Option.some.injEq] at hs
    subst hs
    exact ⟨rfl, rfl⟩

/-- Claim helper: a successful header step increments the height (wrapping),
installs the header's hash as best block hash, adds the selected work with
wrapping 256-bit addition, and had all checks pass. -/
theorem applyHeaderStep_some_spec (isRegtest isTestnet4 : Bool)
    (nc : NetworkConstants) (sha : List Nat → List Nat) (st : ChainState)
    (targetBytes : List Nat) (work lastBlockTime : Nat) (h : CircuitBlockHeader)
    (q : ChainState × List Nat × Nat × Nat)
    (hs : applyHeaderStep isRegtest isTestnet4 nc sha st targetBytes work
        lastBlockTime h = some q) :
    q.1.block_height = (st.block_height + 1) % U32_MOD ∧
      q.1.best_block_hash = computeBlockHash sha h ∧
      q.2.2.1 = (work + (selectTarget isTestnet4 nc st targetBytes lastBlockTime h
        ((st.block_height + 1) % U32_MOD)).2.2) % U256_MOD ∧
      stepChecksOk isRegtest nc sha st
        (selectTarget isTestnet4 nc st targetBytes lastBlockTime h
          ((st.block_height + 1) % U32_MOD)).2.1
        (selectTarget isTestnet4 nc st targetBytes lastBlockTime h
          ((st.block_height + 1) % U32_MOD)).1 h = true := by
  simp only [applyHeaderStep] at hs
  split at hs
  case isTrue hchecks =>
    split at hs
    · exact absurd hs (by simp)
    case h_2 st2 tgt2 hrt =>
      rw [Option.some.injEq] at hs
      subst hs
      obtain ⟨hbh, hbbh⟩ := retargetState_some_spec _ _ _ _ _ _ _ hrt
      refine ⟨?_, ?_, rfl, hchecks⟩
      · rw [hbh, updatedState_block_height]
      · rw [hbbh, updatedState_best_block_hash]
  case isFalse => exact absurd hs (by simp)

/-- Claim helper: outside regtest, passing checks force the header's `bits`
field to equal the expected bits. -/
theorem stepChecksOk_bits (nc : NetworkConstants) (sha : List Nat → List Nat)
    (st : ChainState) (expectedBits : Nat) (targetToUse : List Nat)
    (h : CircuitBlockHeader)
    (hc : stepChecksOk false nc sha st expectedBits targetToUse h = true) :
    h.bits = expectedBits := by
  simp only [stepChecksOk, Bool.and_eq_true, decide_eq_true_eq,
    Bool.false_eq_true, if_false] at hc
  exact hc.1.1.2

/-- Claim helper: `bits_to_target` always produces a value below `2^256`. -/
theorem beBytesToNat_natToBeBytes_lt (w n : Nat) :
    beBytesToNat (natToBeBytes w n) < 256 ^ w := by
  apply lt_of_lt_of_le (beBytesToNat_lt _ ?_)
  · apply Nat.pow_le_pow_right (by norm_num)
    simp [natToBeBytes]
  · intro x hx
    simp only [natToBeBytes, List.mem_map] at hx
    obtain ⟨i, _, hix⟩ := hx
    omega

/-- Claim helper: division identity behind the work formula: when `d` does
not divide `n`, `(n - 1) / d = n / d`. -/
theorem pred_div_eq_div (n d : Nat) (hd : 0 < d) (hnd : ¬ d ∣ n) :
    (n - 1) / d = n / d := by
  have hmod := Nat.div_add_mod n d
  have hr : 0 < n % d := Nat.pos_of_ne_zero (fun h0 => hnd (Nat.dvd_of_mod_eq_zero h0))
  apply Nat.le_antisymm
  · exact Nat.div_le_div_right (Nat.sub_le n 1)
  · rw [Nat.le_div_iff_mul_le hd, Nat.mul_comm]
    omega

/-- Claim helper: loop equation for a failing header. -/
theorem applyLoop_cons_none (isRegtest isTestnet4 : Bool) (nc : NetworkConstants)
    (sha : List Nat → List Nat) (st : ChainState) (tgt : List Nat)
    (work last : Nat) (h : CircuitBlockHeader) (rest : List CircuitBlockHeader)
    (hstep : applyHeaderStep isRegtest isTestnet4 nc sha st tgt work last h = none) :
    applyLoop isRegtest isTestnet4 nc sha st tgt work last (h :: rest) = none := by
  simp only [applyLoop]
  rw [hstep]

/-- Claim helper: loop equation for a successful header step. -/
theorem applyLoop_cons_some (isRegtest isTestnet4 : Bool) (nc : NetworkConstants)
    (sha : List Nat → List Nat) (st : ChainState) (tgt : List Nat)
    (work last : Nat) (h : CircuitBlockHeader) (rest : List CircuitBlockHeader)
    (st1 : ChainState) (tgt1 : List Nat) (work1 last1 : Nat)
    (hstep : applyHeaderStep isRegtest isTestnet4 nc sha st tgt work last h =
      some (st1, tgt1, work1, last1)) :
    applyLoop isRegtest isTestnet4 nc sha st tgt work last (h :: rest) =
      applyLoop isRegtest isTestnet4 nc sha st1 tgt1 work1 last1 rest := by
  simp only [applyLoop]
  rw [hstep]

/-- Claim helper: a successful loop run over a nonempty header list advances
the height by the list length (wrapping at `2^32`) and leaves the last
header's hash as the best block hash. -/
theorem applyLoop_some_height_best (isRegtest isTestnet4 : Bool)
    (nc : NetworkConstants) (sha : List Nat → List Nat) :
    ∀ (hdrs : List CircuitBlockHeader) (st : ChainState) (tgt : List Nat)
      (work last : Nat) (st2 : ChainState) (w2 : Nat),
      applyLoop isRegtest isTestnet4 nc sha st tgt work last hdrs = some (st2, w2) →
      ∀ (hne : hdrs ≠ []),
        st2.block_height = (st.block_height + hdrs.length) % U32_MOD ∧
          st2.best_block_hash = computeBlockHash sha (hdrs.getLast hne) := by
  intro hdrs
  induction hdrs with
  | nil =>
    intro st tgt work last st2 w2 hs hne
    exact absurd rfl hne
  | cons h rest ih =>
    intro st tgt work last st2 w2 hs hne
    cases hstep : applyHeaderStep isRegtest isTestnet4 nc sha st tgt work last h with
    | none =>
      rw [applyLoop_cons_none _ _ _ _ _ _ _ _ _ _ hstep] at hs
      exact absurd hs (by simp)
    | some q =>
      obtain ⟨st1, tgt1, work1, last1⟩ := q
      rw [applyLoop_cons_some _ _ _ _ _ _ _ _ _ _ _ _ _ _ hstep] at hs
      obtain ⟨hbh, hbbh, -, -⟩ :=
        applyHeaderStep_some_spec _ _ _ _ _ _ _ _ _ _ hstep
      have hU32 : U32_MOD = 4294967296 := rfl
      by_cases hrest : rest = []
      · subst hrest
        simp only [applyLoop, Option.some.injEq, Prod.mk.injEq] at hs
        obtain ⟨hst2, -⟩ := hs
        subst hst2
        refine ⟨?_, ?_⟩
        · rw [hbh]
          simp
        · rw [hbbh]
          rfl
      · obtain ⟨hih1, hih2⟩ := ih st1 tgt1 work1 last1 st2 w2 hs hrest
        refine ⟨?_, ?_⟩
        · rw [hih1, hbh]
          rw [hU32]
          simp only [List.length_cons]
          omega
        · rw [hih2]
          congr 1
          exact (List.getLast_cons hrest).symm

/-- C5: applying a batch of N ≥ 1 valid mainnet headers to the genesis
`ChainState` (whose `block_height` is the sentinel `u32::MAX`, so the first
application wraps to height 0) yields `block_height = N - 1` and
`best_block_hash` equal to the double-SHA256 hash of the last header.  The
bound `N ≤ 2^32` keeps `N - 1` representable as the `u32` height. -/
theorem applyBlockHeaders_genesis_continuity (sha : List Nat → List Nat)
    (hdrs : List CircuitBlockHeader) (st2 : ChainState)
    (hne : hdrs ≠ []) (hlen : hdrs.length ≤ U32_MOD)
    (happ : applyBlockHeaders false false mainnetConstants sha
      (ChainState.new mainnetConstants) hdrs = some st2) :
    st2.block_height = hdrs.length - 1 ∧
      st2.best_block_hash = computeBlockHash sha (hdrs.getLast hne) ∧
      (ChainState.new mainnetConstants).block_height = U32_MOD - 1 := by
  simp only [applyBlockHeaders, Bool.false_eq_true, if_false,
    Option.map_eq_some'] at happ
  obtain ⟨p, hp, hval⟩ := happ
  obtain ⟨st1, w1⟩ := p
  obtain ⟨hbh, hbbh⟩ :=
    applyLoop_some_height_best _ _ _ _ hdrs _ _ _ _ _ _ hp hne
  subst hval
  have hpos : 1 ≤ hdrs.length := List.length_pos.mpr hne
  refine ⟨?_, ?_, rfl⟩
  · show st1.block_height = hdrs.length - 1
    rw [hbh]
    have hg : (ChainState.new mainnetConstants).block_height = U32_MOD - 1 := rfl
    rw [hg]
    have hU32 : U32_MOD = 4294967296 := rfl
    rw [hU32] at hlen ⊢
    omega
  · exact hbbh

/-- Claim helper: `bits_to_target` always yields a value below `2^256`. -/
theorem bitsToTarget_value_lt (bits : Nat) :
    beBytesToNat (bitsToTarget bits) < 2 ^ 256 := by
  simp only [bitsToTarget]
  exact lt_of_lt_of_eq (beBytesToNat_natToBeBytes_lt 32 _) (by norm_num)

/-- Claim helper: the work formula written out: `U256::MAX` divided by the
saturating increment of the target. -/
theorem calculateWork_eq (tb : List Nat) :
    calculateWork tb = (2 ^ 256 - 1) / min (beBytesToNat tb + 1) (2 ^ 256 - 1) := rfl

/-- Claim helper: when `target + 1` does not divide `2^256`, the computed
work agrees with `floor(2^256 / (target + 1))`. -/
theorem calculateWork_eq_floor (tb : List Nat) (hv : beBytesToNat tb < 2 ^ 256)
    (hnd : ¬ (beBytesToNat tb + 1) ∣ 2 ^ 256) :
    calculateWork tb = 2 ^ 256 / (beBytesToNat tb + 1) := by
  rw [calculateWork_eq]
  have hne : beBytesToNat tb + 1 ≠ 2 ^ 256 := by
    intro he
    exact hnd (he ▸ dvd_refl _)
  have hmin : min (beBytesToNat tb + 1) (2 ^ 256 - 1) = beBytesToNat tb + 1 := by
    apply Nat.min_eq_left
    omega
  rw [hmin]
  exact pred_div_eq_div (2 ^ 256) (beBytesToNat tb + 1) (by omega) hnd

/-- C2 (amended): a mainnet header accepted against the current target adds
`calculate_work(target) = floor((2^256 - 1) / (target + 1))` (with the
increment saturating at `2^256 - 1`) to `total_work` using wrapping 256-bit
addition; this agrees with the claimed `floor(2^256 / (target + 1))` exactly
when `target + 1` does not divide `2^256`. -/
theorem applyBlockHeaders_work_mainnet (nc : NetworkConstants)
    (sha : List Nat → List Nat) (st : ChainState) (h : CircuitBlockHeader)
    (st2 : ChainState)
    (happ : applyBlockHeaders false false nc sha st [h] = some st2) :
    st2.total_work =
      (st.total_work + calculateWork (bitsToTarget st.current_target_bits)) % U256_MOD ∧
      calculateWork (bitsToTarget st.current_target_bits) =
        (2 ^ 256 - 1) /
          min (beBytesToNat (bitsToTarget st.current_target_bits) + 1) (2 ^ 256 - 1) ∧
      (¬ (beBytesToNat (bitsToTarget st.current_target_bits) + 1) ∣ 2 ^ 256 →
        calculateWork (bitsToTarget st.current_target_bits) =
          2 ^ 256 / (beBytesToNat (bitsToTarget st.current_target_bits) + 1)) := by
  simp only [applyBlockHeaders, Bool.false_eq_true, if_false,
    Option.map_eq_some'] at happ
  obtain ⟨p, hp, hval⟩ := happ
  obtain ⟨st1, w1⟩ := p
  cases hstep : applyHeaderStep false false nc sha st
      (bitsToTarget st.current_target_bits) st.total_work 0 h with
  | none =>
    rw [applyLoop_cons_none _ _ _ _ _ _ _ _ _ _ hstep] at hp
    exact absurd hp (by simp)
  | some q =>
    obtain ⟨st1x, tgt1, work1, last1⟩ := q
    rw [applyLoop_cons_some _ _ _ _ _ _ _ _ _ _ _ _ _ _ hstep] at hp
    simp only [applyLoop, Option.some.injEq, Prod.mk.injEq] at hp
    obtain ⟨hst1, hw1⟩ := hp
    obtain ⟨-, -, hwork, -⟩ :=
      applyHeaderStep_some_spec _ _ _ _ _ _ _ _ _ _ hstep
    subst hval
    refine ⟨?_, calculateWork_eq _, fun hnd =>
      calculateWork_eq_floor _ (bitsToTarget_value_lt _) hnd⟩
    show w1 = _
    rw [← hw1]
    exact hwork

/-- Witness for C2 (amended) on a concrete accepted header. -/
theorem applyBlockHeaders_work_mainnet_witness :
    c2wResult.total_work =
      (c2wState.total_work +
        calculateWork (bitsToTarget c2wState.current_target_bits)) % U256_MOD ∧
      calculateWork (bitsToTarget c2wState.current_target_bits) =
        (2 ^ 256 - 1) /
          min (beBytesToNat (bitsToTarget c2wState.current_target_bits) + 1)
            (2 ^ 256 - 1) ∧
      (¬ (beBytesToNat (bitsToTarget c2wState.current_target_bits) + 1) ∣ 2 ^ 256 →
        calculateWork (bitsToTarget c2wState.current_target_bits) =
          2 ^ 256 / (beBytesToNat (bitsToTarget c2wState.current_target_bits) + 1)) :=
  applyBlockHeaders_work_mainnet mainnetConstants shaZero c2wState c2wHeader
    c2wResult (by rfl)

/-- Counterexample to C2 as stated: the header is accepted (the application
succeeds), the target value is `0xFFFF`, but the work added to the zero
`total_work` is `2^240 - 1 = floor((2^256 - 1) / 2^16)`, not the claimed
`floor(2^256 / (target + 1)) = 2^240`. -/
theorem applyBlockHeaders_work_mainnet_counterexample :
    (applyBlockHeaders false false mainnetConstants shaZero c2cState
        [c2cHeader]).map (fun s => s.total_work) = some (2 ^ 240 - 1) ∧
      beBytesToNat (bitsToTarget c2cState.current_target_bits) = 65535 ∧
      (c2cState.total_work + 2 ^ 256 / (65535 + 1)) % U256_MOD = 2 ^ 240 ∧
      (2 ^ 240 - 1 : Nat) ≠ 2 ^ 240 := by
  refine ⟨by decide, by decide, by decide, by decide⟩

/-- Witness for C5 on a concrete single-header batch from genesis. -/
theorem applyBlockHeaders_genesis_continuity_witness :
    c5Result.block_height = [c5Header].length - 1 ∧
      c5Result.best_block_hash =
        computeBlockHash shaZero ([c5Header].getLast (List.cons_ne_nil _ _)) ∧
      (ChainState.new mainnetConstants).block_height = U32_MOD - 1 :=
  applyBlockHeaders_genesis_continuity shaZero [c5Header] c5Result
    (List.cons_ne_nil _ _) (by decide) (by rfl)

/-- Claim helper: the testnet4 selection under the 20-minute exception
condition reduces to an epoch-boundary case split. -/
theorem selectTarget_testnet4_exception (nc : NetworkConstants) (st : ChainState)
    (tgt : List Nat) (last : Nat) (h : CircuitBlockHeader) (height : Nat)
    (hlt : last + 1200 < U32_MOD) (htime : h.time > last + 1200) :
    selectTarget true nc st tgt last h height =
      if height % BLOCKS_PER_EPOCH = 0 then
        (tgt, st.current_target_bits, calculateWork tgt)
      else (nc.max_target_bytes, nc.max_bits, MINIMUM_WORK_TESTNET) := by
  simp only [selectTarget, if_true]
  rw [Nat.mod_eq_of_lt hlt, if_pos htime]

/-- C3: on testnet4, a header accepted after a gap of more than 1200 seconds
since the previous block time uses the network maximum bits and contributes
exactly `MINIMUM_WORK_TESTNET` when its height is not a multiple of 2016,
while on a multiple of 2016 it must still carry the current target bits and
contributes the normal work for the current target. -/
theorem applyBlockHeaders_testnet4_exception (sha : List Nat → List Nat)
    (st : ChainState) (h : CircuitBlockHeader) (st2 : ChainState)
    (hlt : lastBlockTimeInit st + 1200 < U32_MOD)
    (htime : h.time > lastBlockTimeInit st + 1200)
    (happ : applyBlockHeaders false true testnet4Constants sha st [h] = some st2) :
    (((st.block_height + 1) % U32_MOD) % BLOCKS_PER_EPOCH ≠ 0 →
      h.bits = testnet4Constants.max_bits ∧
        st2.total_work = (st.total_work + MINIMUM_WORK_TESTNET) % U256_MOD) ∧
    (((st.block_height + 1) % U32_MOD) % BLOCKS_PER_EPOCH = 0 →
      h.bits = st.current_target_bits ∧
        st2.total_work = (st.total_work +
          calculateWork (bitsToTarget st.current_target_bits)) % U256_MOD) := by
  simp only [applyBlockHeaders, Bool.false_eq_true, if_false, if_true,
    Option.map_eq_some'] at happ
  obtain ⟨p, hp, hval⟩ := happ
  obtain ⟨st1, w1⟩ := p
  cases hstep : applyHeaderStep false true testnet4Constants sha st
      (bitsToTarget st.current_target_bits) st.total_work (lastBlockTimeInit st) h with
  | none =>
    rw [applyLoop_cons_none _ _ _ _ _ _ _ _ _ _ hstep] at hp
    exact absurd hp (by simp)
  | some q =>
    obtain ⟨st1x, tgt1, work1, last1⟩ := q
    rw [applyLoop_cons_some _ _ _ _ _ _ _ _ _ _ _ _ _ _ hstep] at hp
    simp only [applyLoop, Option.some.injEq, Prod.mk.injEq] at hp
    obtain ⟨hst1, hw1⟩ := hp
    obtain ⟨-, -, hwork, hchecks⟩ :=
      applyHeaderStep_some_spec _ _ _ _ _ _ _ _ _ _ hstep
    rw [selectTarget_testnet4_exception _ _ _ _ _ _ hlt htime] at hwork hchecks
    subst hval
    constructor
    · intro hmod
      rw [if_neg hmod] at hwork hchecks
      refine ⟨stepChecksOk_bits _ _ _ _ _ _ hchecks, ?_⟩
      show w1 = _
      rw [← hw1]
      exact hwork
    · intro hmod
      rw [if_pos hmod] at hwork hchecks
      refine ⟨stepChecksOk_bits _ _ _ _ _ _ hchecks, ?_⟩
      show w1 = _
      rw [← hw1]
      exact hwork

/-- Witness for C3 on a concrete accepted testnet4 header in the 20-minute
exception branch. -/
theorem applyBlockHeaders_testnet4_exception_witness :
    (((c3wState.block_height + 1) % U32_MOD) % BLOCKS_PER_EPOCH ≠ 0 →
      c3wHeader.bits = testnet4Constants.max_bits ∧
        c3wResult.total_work = (c3wState.total_work + MINIMUM_WORK_TESTNET) % U256_MOD) ∧
    (((c3wState.block_height + 1) % U32_MOD) % BLOCKS_PER_EPOCH = 0 →
      c3wHeader.bits = c3wState.current_target_bits ∧
        c3wResult.total_work = (c3wState.total_work +
          calculateWork (bitsToTarget c3wState.current_target_bits)) % U256_MOD) :=
  applyBlockHeaders_testnet4_exception shaZero c3wState c3wHeader c3wResult
    (by decide) (by decide) (by rfl)

/-- C7: the circuit commits an output exactly when the method-ID check and
every per-header validation pass; on any failure it commits nothing, and a
committed output carries precisely the fully applied chain state (state is
built locally and only published through the single `commit`), the input
method ID, and the genesis state hash. -/
theorem headerChainCircuit_failure_semantics (isRegtest isTestnet4 : Bool)
    (nc : NetworkConstants) (sha : List Nat → List Nat)
    (input : HeaderChainCircuitInput) :
    (headerChainCircuit isRegtest isTestnet4 nc sha input = none ↔
      methodIdMismatch input = true ∨
        applyBlockHeaders isRegtest isTestnet4 nc sha (inputState input)
          input.block_headers = none) ∧
    (∀ out, headerChainCircuit isRegtest isTestnet4 nc sha input = some out →
      methodIdMismatch input = false ∧
        applyBlockHeaders isRegtest isTestnet4 nc sha (inputState input)
          input.block_headers = some out.chain_state ∧
        out.method_id = input.method_id ∧
        out.genesis_state_hash = inputGenesisHash sha input) := by
  by_cases hm : methodIdMismatch input = true
  · simp [headerChainCircuit, hm]
  · have hm' : methodIdMismatch input = false := by
      simpa using hm
    cases happ : applyBlockHeaders isRegtest isTestnet4 nc sha (inputState input)
        input.block_headers with
    | none =>
      simp [headerChainCircuit, hm', happ]
    | some cs =>
      refine ⟨?_, ?_⟩
      · simp [headerChainCircuit, hm', happ]
      · intro out hout
        simp only [headerChainCircuit, hm', Bool.false_eq_true, if_false, happ,
          Option.map_some', Option.some.injEq] at hout
        subst hout
        refine ⟨hm', ?_, rfl, rfl⟩
        simp [happ]

/-- Witness for C7 on a concrete committing circuit run. -/
theorem headerChainCircuit_failure_semantics_witness :
    methodIdMismatch c7Input = false ∧
      applyBlockHeaders false false mainnetConstants shaZero (inputState c7Input)
        c7Input.block_headers = some c7Out.chain_state ∧
      c7Out.method_id = c7Input.method_id ∧
      c7Out.genesis_state_hash = inputGenesisHash shaZero c7Input :=
  (headerChainCircuit_failure_semantics false false mainnetConstants shaZero
    c7Input).2 c7Out (by rfl)

namespace StateMachineModel

variable {M S E : Type}

/-- Claim helper: a machine is reported unchanged exactly when processing it
yields no events. -/
theorem isUnchanged_iff (proc : M → ProcResult M E) (m : M) :
    isUnchanged proc m = true ↔ proc m = .unchanged := by
  cases hp : proc m <;> simp [isUnchanged, hp]

/-- Claim helper: the first component of `update_machines` holds only
machines unaffected by the block. -/
theorem mem_updateMachines_fst (proc : M → ProcResult M E) (ms : List M)
    (m : M) (hm : m ∈ (updateMachines proc ms).1) : isUnchanged proc m = true := by
  simp only [updateMachines] at hm
  exact (List.mem_filter.mp hm).2

/-- Claim helper: every machine returned by a successful stabilization loop
is unchanged by further processing. -/
theorem stabLoop_ok_all_unchanged (proc : M → ProcResult M E) (stateOf : M → S) :
    ∀ (fuel iter : Nat) (finalMs pending : List M),
      501 - iter ≤ fuel →
      (∀ m ∈ finalMs, isUnchanged proc m = true) →
      ∀ ms, stabLoop proc stateOf finalMs pending iter = .ok ms →
        ∀ m ∈ ms, isUnchanged proc m = true := by
  intro fuel
  induction fuel with
  | zero =>
    intro iter finalMs pending hle hfin ms hok
    rw [stabLoop] at hok
    split at hok
    · rw [Except.ok.injEq] at hok
      subst hok
      exact hfin
    · split at hok
      · exact absurd hok (by simp)
      · split at hok
        · exact absurd hok (by simp)
        · omega
  | succ fuel ih =>
    intro iter finalMs pending hle hfin ms hok
    rw [stabLoop] at hok
    split at hok
    · rw [Except.ok.injEq] at hok
      subst hok
      exact hfin
    · split at hok
      · exact absurd hok (by simp)
      · split at hok
        · exact absurd hok (by simp)
        · refine ih (iter + 1) _ _ (by omega) ?_ ms hok
          intro m hm
          rcases List.mem_append.mp hm with hm1 | hm2
          · exact hfin m hm1
          · exact mem_updateMachines_fst proc _ m hm2

/-- Claim helper: the second component of `update_machines` holds only
machines that the block still changes. -/
theorem mem_updateMachines_snd (proc : M → ProcResult M E) (ms : List M)
    (m : M) (hm : m ∈ (updateMachines proc ms).2) : isUnchanged proc m = false := by
  simp only [updateMachines] at hm
  have h := (List.mem_filter.mp hm).2
  simpa using h

/-- Claim helper: a non-convergence error lists exactly the post-processing
states of the machines of the final iteration (all of which the block was
still changing) together with any machines they spawned. -/
theorem stabLoop_nonConvergence_spec (proc : M → ProcResult M E) (stateOf : M → S) :
    ∀ (fuel iter : Nat) (finalMs pending : List M) (ss : List S),
      501 - iter ≤ fuel →
      (∀ m ∈ pending, isUnchanged proc m = false) →
      stabLoop proc stateOf finalMs pending iter = .error (.nonConvergence ss) →
      ∃ stillChanging : List M, stillChanging ≠ [] ∧
        (∀ m ∈ stillChanging, isUnchanged proc m = false) ∧
        ss = (stillChanging.map (procNext proc) ++
          stillChanging.flatMap (procSpawned proc)).map stateOf := by
  intro fuel
  induction fuel with
  | zero =>
    intro iter finalMs pending ss hle hpend herr
    rw [stabLoop] at herr
    split at herr
    · exact absurd herr (by simp)
    · split at herr
      · simp only [Except.error.injEq] at herr
        exact absurd herr (by simp)
      · split at herr
        · simp only [Except.error.injEq, StabError.nonConvergence.injEq] at herr
          rename_i hemp _ _
          simp only [List.isEmpty_eq_true] at hemp
          exact ⟨pending, hemp, hpend, herr.symm⟩
        · omega
  | succ fuel ih =>
    intro iter finalMs pending ss hle hpend herr
    rw [stabLoop] at herr
    split at herr
    · exact absurd herr (by simp)
    · split at herr
      · simp only [Except.error.injEq] at herr
        exact absurd herr (by simp)
      · split at herr
        · simp only [Except.error.injEq, StabError.nonConvergence.injEq] at herr
          rename_i hemp _ _
          simp only [List.isEmpty_eq_true] at hemp
          exact ⟨pending, hemp, hpend, herr.symm⟩
        · refine ih (iter + 1) _ _ ss (by omega) ?_ herr
          intro m hm
          exact mem_updateMachines_snd proc _ m hm

/-- C8: `process_block_parallel` re-iterates the machines against the block
cache until none changes state: a successful return installs a machine set
in which every machine is unchanged by further processing against the cache,
and advances `last_processed_block_height` to the maximum of the block height
and its previous value; when the machines fail to stabilize within the
500-iteration limit the result is a non-convergence error listing the
(nonempty) states of the machines that were still changing. -/
theorem processBlockParallel_spec (proc : M → ProcResult M E) (stateOf : M → S)
    (sm : SMModel M) (cacheBlockHeight blockHeight : Nat) :
    (∀ sm2, processBlockParallel proc stateOf sm cacheBlockHeight blockHeight = .ok sm2 →
      (∀ m ∈ sm2.machines, proc m = .unchanged) ∧
        sm2.last_processed_block_height =
          max blockHeight sm.last_processed_block_height) ∧
    (∀ ss, processBlockParallel proc stateOf sm cacheBlockHeight blockHeight =
        .error (.nonConvergence ss) →
      ss ≠ [] ∧ ∃ stillChanging : List M, stillChanging ≠ [] ∧
        (∀ m ∈ stillChanging, proc m ≠ .unchanged) ∧
        ss = (stillChanging.map (procNext proc) ++
          stillChanging.flatMap (procSpawned proc)).map stateOf) := by
  unfold processBlockParallel
  split
  · constructor
    · intro sm2 hok
      exact absurd hok (by simp)
    · intro ss herr
      simp only [Except.error.injEq] at herr
      exact absurd herr (by simp)
  · cases hrun : stabLoop proc stateOf (updateMachines proc sm.machines).1
        (updateMachines proc sm.machines).2 0 with
    | error e =>
      constructor
      · intro sm2 hok
        exact absurd hok (by simp [Except.map])
      · intro ss herr
        simp only [Except.map, Except.error.injEq] at herr
        subst herr
        obtain ⟨sc, hscne, hscch, hss⟩ :=
          stabLoop_nonConvergence_spec proc stateOf 501 0 _ _ ss (by omega)
            (fun m hm => mem_updateMachines_snd proc _ m hm) hrun
        have hscch2 : ∀ m ∈ sc, proc m ≠ .unchanged := by
          intro m hm hc
          have := (isUnchanged_iff proc m).mpr hc
          rw [hscch m hm] at this
          exact absurd this (by simp)
        refine ⟨?_, sc, hscne, hscch2, hss⟩
        have hpos : 0 < sc.length := List.length_pos.mpr hscne
        have hsslen : 0 < ss.length := by
          rw [hss]
          simp only [List.length_map, List.length_append]
          omega
        exact List.length_pos.mp hsslen
    | ok ms =>
      constructor
      · intro sm2 hok
        simp only [Except.map, Except.ok.injEq] at hok
        subst hok
        refine ⟨?_, rfl⟩
        intro m hm
        rw [← isUnchanged_iff]
        refine stabLoop_ok_all_unchanged proc stateOf 501 0 _ _ (by omega) ?_ ms hrun m hm
        intro m2 hm2
        exact mem_updateMachines_fst proc _ m2 hm2
      · intro ss herr
        exact absurd herr (by simp [Except.map])

/-- Witness for C8 on a concrete stabilizing run at block height 7. -/
theorem processBlockParallel_spec_witness :
    (⟨[()], 7⟩ : SMModel Unit).last_processed_block_height =
      max 7 smUnit.last_processed_block_height :=
  ((processBlockParallel_spec procUnit stateUnit smUnit 7 7).1 ⟨[()], 7⟩
    (by rw [processBlockParallel]
        simp [updateMachines, isUnchanged, procUnit, smUnit]
        rw [stabLoop]
        simp [Except.map])).2

end StateMachineModel

namespace TxSenderModel

/-- C9 (evaluation of the code at the failing input): at the fallback feerate
of 1 satoshi per weight unit and a parent of 1000 weight units,
`create_child_tx` builds the child spending the parent's P2A anchor as input
0 and the fee-payer UTXO as input 1, and reserves `1 * (300 + 1000) = 1300`
satoshis via the hardcoded child size, so the package pays
`240 + 1300 = 1540` satoshis in total fees; but the child transaction
actually weighs 609 weight units, and the claimed invariant demands at least
`1 * (1000 + 609) = 1609` satoshis.  `find_p2a_anchor` locates the single
anchor-valued output of the parent. -/
theorem createChildTx_underpays_package :
    createChildTx ⟨1, 0⟩ ⟨2, 1⟩ 100000 1000 1 =
      some ⟨[⟨1, 0⟩, ⟨2, 1⟩], 100000 - 1300⟩ ∧
      findP2aAnchor [5000, 240, 800] = some 1 ∧
      packageFee 1 1000 = 1540 ∧
      childTxWeight = 609 ∧
      packageFee 1 1000 < 1 * (1000 + childTxWeight) :=
  ⟨rfl, rfl, rfl, rfl, by decide⟩

end TxSenderModel

end Clementine
